import Mathlib

/-!
Verification of the download pipeline of the Pixiv bulk-download scripts.

All string-processing definitions operate on `List Char` (a Python `str` is a
sequence of characters).  Python regular expressions used by the scripts are
embedded as explicit backtracking matchers with Python's `re.search`
semantics: leftmost match start wins, a lazy quantifier prefers the shortest
extension, a greedy quantifier the longest, and `.` matches every character
except a newline.
-/

set_option maxRecDepth 10000

namespace Pixiv

/-- Characters of a string literal. -/
def chars (s : String) : List Char := s.toList

/-- Consume the literal pattern `p` from the front of `s`, returning the rest. -/
def dropPre : List Char → List Char → Option (List Char)
  | [], s => some s
  | _ :: _, [] => none
  | p :: ps, c :: cs => if p = c then dropPre ps cs else none

/-- Case-insensitive variant of `dropPre` (for patterns compiled with `re.I`). -/
def dropPreCI : List Char → List Char → Option (List Char)
  | [], s => some s
  | _ :: _, [] => none
  | p :: ps, c :: cs => if p.toLower = c.toLower then dropPreCI ps cs else none

/-- Backtracking matcher for the regex fragment `.+?` (lazy, one or more
characters, none of them a newline): try handing the shortest consumed run to
the continuation `k` first, extending one character at a time. -/
def lazyPlus {α : Type} (k : List Char → List Char → Option α) : List Char → Option α
  | [] => none
  | c :: rest =>
    if c = '\n' then none
    else
      match k [c] rest with
      | some r => some r
      | none => lazyPlus (fun tail r2 => k (c :: tail) r2) rest

/-- Semantics of `re.search`: try the matcher at every start position, leftmost
position first (including the empty position at the end of the string). -/
def searchSome {α : Type} (m : List Char → Option α) : List Char → Option α
  | [] => m []
  | c :: rest =>
    match m (c :: rest) with
    | some r => some r
    | none => searchSome m rest

/-- Maximal run of decimal digits at the front of `s`, with the rest
(the regex fragment `\d+` when followed by a non-digit literal). -/
def digitSpan (s : List Char) : List Char × List Char :=
  (s.takeWhile Char.isDigit, s.dropWhile Char.isDigit)

/-- Auxiliary worker for first-seen-order deduplication. -/
def dedupAux (seen : List (List Char)) : List (List Char) → List (List Char)
  | [] => []
  | c :: rest => if c ∈ seen then dedupAux seen rest else c :: dedupAux (c :: seen) rest

/-- First-seen-order deduplication, the `seen`/`out` loop at the end of
`generate_candidates_from_thumb`. -/
def dedupFirst (l : List (List Char)) : List (List Char) := dedupAux [] l

/-- Fueled worker for `replaceAll`; each step consumes at least one character
when the pattern is nonempty, so fuel `s.length` is exact. -/
def replaceAllFuel (pat rep : List Char) : Nat → List Char → List Char
  | 0, s => s
  | _ + 1, [] => []
  | fuel + 1, c :: rest =>
    match dropPre pat (c :: rest) with
    | some r => rep ++ replaceAllFuel pat rep fuel r
    | none => c :: replaceAllFuel pat rep fuel rest

/-- Python `str.replace(pat, rep)`: replace every non-overlapping occurrence,
scanning left to right (defined for nonempty `pat`, the only use here). -/
def replaceAll (pat rep s : List Char) : List Char := replaceAllFuel pat rep s.length s

/-- Decimal digits of a natural number, as Python's `str(n)` / f-string
interpolation produces them. -/
def natChars (n : Nat) : List Char := (Nat.repr n).toList

/-- Split at the first occurrence of `c`: chars before it, and (when present)
the chars after it. -/
def splitFirst (c : Char) : List Char → List Char × Option (List Char)
  | [] => ([], none)
  | x :: xs =>
    if x = c then ([], some xs)
    else
      let r := splitFirst c xs
      (x :: r.1, r.2)

/-- Python `path.split('/')` on a character list. -/
def splitSlash : List Char → List (List Char)
  | [] => [[]]
  | c :: rest =>
    let r := splitSlash rest
    if c = '/' then [] :: r
    else
      match r with
      | [] => [[c]]
      | seg :: rest2 => (c :: seg) :: rest2

/-- Dot-segment resolution performed by `urllib.parse.urljoin`: `..` pops the
last resolved segment (no-op when empty), `.` is dropped, and a trailing `.`
or `..` re-appends an empty segment. -/
def resolveDotSegs (segs : List (List Char)) : List (List Char) :=
  let resolved := segs.foldl
    (fun acc seg =>
      if seg = chars ".." then acc.dropLast
      else if seg = chars "." then acc
      else acc ++ [seg]) []
  if segs.getLast? = some (chars "..") ∨ segs.getLast? = some (chars ".") then
    resolved ++ [[]]
  else resolved

/-- Reassemble a resolved path the way `urlunsplit` does for a URL with a
network location: an empty path becomes `/`, and a nonempty path is forced to
begin with `/`. -/
def pathWithSlash (j : List Char) : List Char :=
  if j = [] then ['/']
  else if j.head? = some '/' then j else '/' :: j

/-- Models `urllib.parse.urljoin("https://www.pixiv.net", p)` for a
site-relative reference `p` beginning with a single `/`: the fragment is split
at the first `#`, the query at the first `?` before it, dot segments of the
path are resolved, and empty query/fragment parts are dropped on reassembly. -/
def urljoinRoot (p : List Char) : List Char :=
  let bh := splitFirst '#' p
  let pq := splitFirst '?' bh.1
  let rp := pathWithSlash (List.intercalate ['/'] (resolveDotSegs (splitSlash pq.1)))
  chars "https://www.pixiv.net" ++ rp ++
    (match pq.2 with
     | some q => if q = [] then [] else '?' :: q
     | none => []) ++
    (match bh.2 with
     | some f => if f = [] then [] else '#' :: f
     | none => [])

/-- URL normalization at the head of `generate_candidates_from_thumb`:
a protocol-relative `//…` reference gets the `https:` scheme, then a
site-relative `/…` reference is joined onto the site base URL. -/
def normalizeThumb (s : List Char) : List Char :=
  let s1 := if (chars "//").isPrefixOf s then chars "https:" ++ s else s
  if (chars "/").isPrefixOf s1 then urljoinRoot s1 else s1

/-- Matcher for `https://i\.pximg\.net/.+?/img-master/img/(.+?)_p\d+_square1200\.jpg`
anchored at the current position; returns group 1. -/
def squareAt (s : List Char) : Option (List Char) :=
  (dropPre (chars "https://i.pximg.net/") s).bind fun s1 =>
  lazyPlus (fun _ s2 =>
    (dropPre (chars "/img-master/img/") s2).bind fun s3 =>
    lazyPlus (fun cap s4 =>
      (dropPre (chars "_p") s4).bind fun s5 =>
      let d := digitSpan s5
      if d.1 = [] then none
      else (dropPre (chars "_square1200.jpg") d.2).map fun _ => cap) s3) s1

/-- Matcher for `https://i\.pximg\.net/.+?/custom-thumb/img/(.+?)_p\d+_custom1200\.jpg`
anchored at the current position; returns group 1. -/
def customAt (s : List Char) : Option (List Char) :=
  (dropPre (chars "https://i.pximg.net/") s).bind fun s1 =>
  lazyPlus (fun _ s2 =>
    (dropPre (chars "/custom-thumb/img/") s2).bind fun s3 =>
    lazyPlus (fun cap s4 =>
      (dropPre (chars "_p") s4).bind fun s5 =>
      let d := digitSpan s5
      if d.1 = [] then none
      else (dropPre (chars "_custom1200.jpg") d.2).map fun _ => cap) s3) s1

/-- Matcher for `https://i\.pximg\.net/.+?/(?:img-master|custom-thumb)/img/(.+?)_p0`
anchored at the current position; returns group 1.  The two alternatives start
with distinct characters after `/`, so at most one applies at a position. -/
def masterAt (s : List Char) : Option (List Char) :=
  (dropPre (chars "https://i.pximg.net/") s).bind fun s1 =>
  lazyPlus (fun _ s2 =>
    (match dropPre (chars "/img-master/img/") s2 with
     | some s3 => some s3
     | none => dropPre (chars "/custom-thumb/img/") s2).bind fun s3 =>
    lazyPlus (fun cap s4 => (dropPre (chars "_p0") s4).map fun _ => cap) s3) s1

/-- Matcher for `https://i\.pximg\.net/c/.+?/img/(.+?)_p0` anchored at the
current position; returns group 1. -/
def cThumbAt (s : List Char) : Option (List Char) :=
  (dropPre (chars "https://i.pximg.net/c/") s).bind fun s1 =>
  lazyPlus (fun _ s2 =>
    (dropPre (chars "/img/") s2).bind fun s3 =>
    lazyPlus (fun cap s4 => (dropPre (chars "_p0") s4).map fun _ => cap) s3) s1

/-- Matcher for `/img/(.+?)_p0` anchored at the current position; returns
group 1. -/
def imgAt (s : List Char) : Option (List Char) :=
  (dropPre (chars "/img/") s).bind fun s1 =>
  lazyPlus (fun cap s2 => (dropPre (chars "_p0") s2).map fun _ => cap) s1

/-- The rewrite cascade of `to_original_url`: the five `re.search` calls tried
in source order, first match winning.  Every branch of the Python function
formats its group 1 the same way, so only the captured path matters. -/
def rewriteCapture (s : List Char) : Option (List Char) :=
  match searchSome squareAt s with
  | some p => some p
  | none =>
    match searchSome customAt s with
    | some p => some p
    | none =>
      match searchSome masterAt s with
      | some p => some p
      | none =>
        match searchSome cThumbAt s with
        | some p => some p
        | none => searchSome imgAt s

/-- Embedding of `to_original_url`: empty input is returned unchanged; when a
rewrite pattern matches, the result is
`https://i.pximg.net/img-original/img/{path}_p0.jpg`; otherwise the input is
returned unchanged. -/
def to_original_url (s : List Char) : List Char :=
  if s = [] then s
  else
    match rewriteCapture s with
    | some p => chars "https://i.pximg.net/img-original/img/" ++ p ++ chars "_p0.jpg"
    | none => s

/-- End-of-pattern check for `$` without `re.M`: end of string, or just before
a single trailing newline. -/
def atDollar (s : List Char) : Bool := s = [] ∨ s = ['\n']

/-- The alternation `(jpg|png|webp|gif)$` under `re.I`, tried in pattern
order. -/
def extAltCI (s : List Char) : Option Unit :=
  match (dropPreCI (chars "jpg") s).bind fun r => if atDollar r then some () else none with
  | some u => some u
  | none =>
    match (dropPreCI (chars "png") s).bind fun r => if atDollar r then some () else none with
    | some u => some u
    | none =>
      match (dropPreCI (chars "webp") s).bind fun r => if atDollar r then some () else none with
      | some u => some u
      | none => (dropPreCI (chars "gif") s).bind fun r => if atDollar r then some () else none

/-- Matcher for the multi-page pattern `(.+?)_p(\d+)\.(jpg|png|webp|gif)$`
(compiled with `re.I`) anchored at the current position; returns group 1,
the only group the script uses. -/
def mpAt (s : List Char) : Option (List Char) :=
  lazyPlus (fun cap s1 =>
    (dropPreCI (chars "_p") s1).bind fun s2 =>
    let d := digitSpan s2
    if d.1 = [] then none
    else
      (dropPre ['.'] d.2).bind fun s4 =>
      (extAltCI s4).map fun _ => cap) s

/-- Search form of the multi-page pattern. -/
def re_mp (s : List Char) : Option (List Char) := searchSome mpAt s

/-- One `\d+` group of the date path, with the rest of the input. -/
def dpDigits (s : List Char) : Option (List Char × List Char) :=
  let d := digitSpan s
  if d.1 = [] then none else some d

/-- A `\d+/` step of the date-path pattern. -/
def dpDigitsSlash (s : List Char) : Option (List Char × List Char) :=
  (dpDigits s).bind fun d =>
  (dropPre ['/'] d.2).map fun r => (d.1 ++ ['/'], r)

/-- Matcher for `/img-master/img/(\d+/\d+/\d+/\d+/\d+/\d+/\d+_p\d+)` anchored
at the current position; returns group 1. -/
def dateAt (s : List Char) : Option (List Char) :=
  (dropPre (chars "/img-master/img/") s).bind fun s0 =>
  (dpDigitsSlash s0).bind fun a1 =>
  (dpDigitsSlash a1.2).bind fun a2 =>
  (dpDigitsSlash a2.2).bind fun a3 =>
  (dpDigitsSlash a3.2).bind fun a4 =>
  (dpDigitsSlash a4.2).bind fun a5 =>
  (dpDigitsSlash a5.2).bind fun a6 =>
  (dpDigits a6.2).bind fun a7 =>
  (dropPre (chars "_p") a7.2).bind fun s7 =>
  (dpDigits s7).map fun a8 =>
    a1.1 ++ a2.1 ++ a3.1 ++ a4.1 ++ a5.1 ++ a6.1 ++ a7.1 ++ chars "_p" ++ a8.1

/-- Search form of the date-path pattern. -/
def re_dp (s : List Char) : Option (List Char) := searchSome dateAt s

/-- Configured bound on synthesized multi-page indices
(`MAX_PAGES_TO_EXPAND`). -/
def MAX_PAGES_TO_EXPAND : Nat := 8

/-- The candidates contributed by the plain rewrite (`original_url` and its
raster-extension counterpart): present only when the rewrite produced a
nonempty URL different from the (normalized) thumbnail, with the alternate
extension obtained by `str.replace` on every occurrence. -/
def primaryCands (n : List Char) : List (List Char) :=
  let orig := to_original_url n
  if orig ≠ [] ∧ orig ≠ n then
    [orig] ++
      (if (chars ".jpg").isSuffixOf orig then [replaceAll (chars ".jpg") (chars ".png") orig]
       else if (chars ".png").isSuffixOf orig then [replaceAll (chars ".png") (chars ".jpg") orig]
       else [])
  else []

/-- Base URL prefix of the candidates synthesized from the date-path match. -/
def dpBase : List Char := chars "https://i.pximg.net/img-original/img/"

/-- The candidates contributed by the multi-page / date-path / fallback logic
of `generate_candidates_from_thumb` (the code after the rewrite block):
when the multi-page pattern matches, the indexed `.jpg`/`.png` family over
`[0, maxPages)`; otherwise, when the date-path pattern matches, the
synthesized pair repeated per index (the `basepath.replace(f'_p{i}', f'_p{i}')`
in the source is the identity); otherwise the normalized input alone. -/
def pageCands (maxPages : Nat) (n : List Char) : List (List Char) :=
  match re_mp n with
  | some base =>
    (List.range maxPages).flatMap fun i =>
      [base ++ chars "_p" ++ natChars i ++ chars ".jpg",
       base ++ chars "_p" ++ natChars i ++ chars ".png"]
  | none =>
    match re_dp n with
    | some bp =>
      (List.range maxPages).flatMap fun _ =>
        [dpBase ++ bp ++ chars ".jpg", dpBase ++ bp ++ chars ".png"]
    | none => [n]

/-- Embedding of `generate_candidates_from_thumb`: empty input yields no
candidates; otherwise the input is normalized, the rewrite candidates and the
multi-page/date-path/fallback candidates are collected in order, and the
result is deduplicated preserving first-seen order. -/
def generate_candidates_from_thumb (s : List Char) (maxPages : Nat) : List (List Char) :=
  if s = [] then []
  else
    dedupFirst (primaryCands (normalizeThumb s) ++ pageCands maxPages (normalizeThumb s))

/-- Characters replaced by `sanitize_filename` (the regex class
`[\\/:*?"<>|]`). -/
def badChars : List Char := ['\\', '/', ':', '*', '?', '\"', '<', '>', '|']

/-- Embedding of `sanitize_filename`: `re.sub(r'[\\/:*?"<>|]', '_', s)`
replaces each occurrence of a character of the class by `_` and leaves every
other character unchanged. -/
def sanitize_filename (s : List Char) : List Char :=
  s.map fun c => if c ∈ badChars then '_' else c

/-! ## Resumable transfer (`attempt_download_with_resume` and the
backoff wrapper `download_with_backoff`)

The filesystem visible to one transfer is the staging file
(`save_path + ".!tmp"`) and the destination file; network responses are
explicit inputs.  Wall-clock times, logging and the request/response capture
are outside the model, and disk writes and the atomic rename are modelled as
succeeding. -/

/-- The slice of the filesystem a transfer touches: the staging (`.!tmp`)
file and the destination file. -/
structure FS where
  tmpExists : Bool
  tmpSize : Nat
  destExists : Bool
  destSize : Nat
deriving DecidableEq

/-- Outcome of the metadata probe (the `session.head` call): whether it
raised, its status code, and the parsed `content-length` header when present
and parseable. -/
structure ProbeResponse where
  exc : Bool
  status : Option Nat
  contentLength : Option Nat
deriving DecidableEq

/-- Outcome of the streamed `session.get` call: whether it raised, its status
code, whether a `content-range` header is present, the total parsed from that
header by `re.search(r'/(\d+)', …)` when it parses, and the number of body
bytes streamed. -/
structure GetResponse where
  exc : Bool
  status : Option Nat
  crPresent : Bool
  crTotal : Option Nat
  bodyLen : Nat
deriving DecidableEq

/-- Size of the existing staging file (`os.path.getsize` when it exists,
else 0). -/
def existingOf (fs : FS) : Nat := if fs.tmpExists then fs.tmpSize else 0

/-- The `expected_len` learned from the probe: set only when the probe did not
raise, its status was 200 or 206, and a `content-length` header parsed. -/
def expectedLenOf (p : ProbeResponse) : Option Nat :=
  if p.exc then none
  else if p.status = some 200 ∨ p.status = some 206 then p.contentLength
  else none

/-- The start byte of the `Range: bytes={existing}-` request header, when one
is sent: the staging size is nonzero, an expected length is known and truthy,
and the staging size is smaller. -/
def rangeStartOf (fs : FS) (p : ProbeResponse) : Option Nat :=
  match expectedLenOf p with
  | some l =>
    if existingOf fs ≠ 0 ∧ l ≠ 0 ∧ existingOf fs < l then some (existingOf fs) else none
  | none => none

/-- Result of one transfer attempt: the returned `(ok, status, bytes, …)`
tuple (elapsed time omitted), the filesystem state it leaves behind, and the
`Range` start of the GET request it issued (if any). -/
structure AttemptResult where
  ok : Bool
  status : Option Nat
  size : Nat
  fs : FS
  rangeStart : Option Nat
deriving DecidableEq

/-- The stale-partial removal plus `safe_write_with_resume`: a 200 response
with an existing partial discards the staging file first; the stream is then
appended to a surviving staging file or written fresh.  Returns the new
filesystem state and the `written` byte count. -/
def streamed (fs : FS) (g : GetResponse) : FS × Nat :=
  let existing := existingOf fs
  let stale := g.status = some 200 ∧ existing ≠ 0
  let fs1 := if stale then { fs with tmpExists := false, tmpSize := 0 } else fs
  let ex1 := if stale then 0 else existing
  let app := ex1 ≠ 0 ∧ fs1.tmpExists = true
  let newSize := if app then fs1.tmpSize + g.bodyLen else g.bodyLen
  ({ fs1 with tmpExists := true, tmpSize := newSize }, ex1 + g.bodyLen)

/-- The `total_expected` reconciliation source: the `content-range` total when
that header is present (even if it failed to parse), otherwise the probe's
`expected_len`. -/
def expectedTotalOf (p : ProbeResponse) (g : GetResponse) : Option Nat :=
  if g.crPresent then g.crTotal else expectedLenOf p

/-- Embedding of `attempt_download_with_resume`: probe, optionally ranged GET,
stale-partial handling, streamed write, size reconciliation (skipped when
`total_expected` is absent or falsy), and atomic publish on success. -/
def attempt_download_with_resume (fs : FS) (p : ProbeResponse) (g : GetResponse) :
    AttemptResult :=
  let rS := rangeStartOf fs p
  if g.exc then ⟨false, none, 0, fs, rS⟩
  else if ¬(g.status = some 200 ∨ g.status = some 206) then ⟨false, g.status, 0, fs, rS⟩
  else
    let fs2 := (streamed fs g).1
    let finalSize := fs2.tmpSize
    let published : FS := ⟨false, 0, true, finalSize⟩
    match expectedTotalOf p g with
    | some t =>
      if t ≠ 0 ∧ finalSize ≠ t then ⟨false, g.status, finalSize, fs2, rS⟩
      else ⟨true, g.status, finalSize, published, rS⟩
    | none => ⟨true, g.status, finalSize, published, rS⟩

/-- Retry ceiling per candidate (`MAX_DOWNLOAD_RETRIES`). -/
def MAX_DOWNLOAD_RETRIES : Nat := 6

/-- The candidate list of `download_with_backoff`: the URL itself, followed by
its alternate raster-extension counterpart when the lowercased URL ends in
`.jpg` or `.png` (the swap drops the last four characters of the original). -/
def dwbCandidates (url : List Char) : List (List Char) :=
  let lower := url.map Char.toLower
  if (chars ".jpg").isSuffixOf lower then [url, url.take (url.length - 4) ++ chars ".png"]
  else if (chars ".png").isSuffixOf lower then [url, url.take (url.length - 4) ++ chars ".jpg"]
  else [url]

/-- Result of the backoff wrapper: the returned tuple (elapsed omitted), the
final filesystem state, the candidate whose attempt succeeded (if any), and
the index of the next network interaction (each attempt consumes one). -/
structure DwbResult where
  ok : Bool
  status : Option Nat
  size : Nat
  fs : FS
  winner : Option (List Char)
  calls : Nat
deriving DecidableEq

/-- The inner retry loop of `download_with_backoff` for one candidate:
up to `k` attempts, each consuming the next probe/GET pair from `env`,
threading the staging file between attempts and recording the most recent
status (sleeps between attempts are outside the model). -/
def runAttempts (env : Nat → ProbeResponse × GetResponse) (cand : List Char) :
    Nat → FS → Nat → Option Nat → DwbResult
  | 0, fs, callIdx, last => ⟨false, last, 0, fs, none, callIdx⟩
  | k + 1, fs, callIdx, _ =>
    let res := attempt_download_with_resume fs (env callIdx).1 (env callIdx).2
    if res.ok then ⟨true, res.status, res.size, res.fs, some cand, callIdx + 1⟩
    else runAttempts env cand k res.fs (callIdx + 1) res.status

/-- The outer candidate loop of `download_with_backoff`: first success wins,
otherwise the most recent status is reported. -/
def runCands (env : Nat → ProbeResponse × GetResponse) :
    List (List Char) → FS → Nat → Option Nat → DwbResult
  | [], fs, callIdx, last => ⟨false, last, 0, fs, none, callIdx⟩
  | c :: rest, fs, callIdx, last =>
    let r := runAttempts env c MAX_DOWNLOAD_RETRIES fs callIdx last
    if r.ok then r else runCands env rest r.fs r.calls r.status

/-- Embedding of `download_with_backoff`: derive the candidate list from the
URL and run the retry loops against the response environment `env`. -/
def download_with_backoff (env : Nat → ProbeResponse × GetResponse) (url : List Char)
    (fs : FS) : DwbResult :=
  runCands env (dwbCandidates url) fs 0 none

/-- Models `urllib.parse.urlparse(u).path` for absolute `http(s)` URLs and for
scheme-less path strings: drop the scheme and network location, stop at the
first `?` or `#`. -/
def pathOfUrl (u : List Char) : List Char :=
  let rest :=
    match dropPre (chars "https://") u with
    | some r => r.dropWhile fun c => c ≠ '/' ∧ c ≠ '?' ∧ c ≠ '#'
    | none =>
      match dropPre (chars "http://") u with
      | some r => r.dropWhile fun c => c ≠ '/' ∧ c ≠ '?' ∧ c ≠ '#'
      | none => u
  rest.takeWhile fun c => c ≠ '?' ∧ c ≠ '#'

/-- The extension detection of `run_full_simulation`
(`re.search(r'\.(jpg|png|gif|webp)$', path, re.I)`, defaulting to `.jpg`):
a case-insensitive suffix check, tolerating one trailing newline as `$`
does. -/
def extOfPath (p : List Char) : List Char :=
  let lower := p.map Char.toLower
  let core := if lower.getLast? = some '\n' then lower.dropLast else lower
  if (chars ".jpg").isSuffixOf core then chars ".jpg"
  else if (chars ".png").isSuffixOf core then chars ".png"
  else if (chars ".gif").isSuffixOf core then chars ".gif"
  else if (chars ".webp").isSuffixOf core then chars ".webp"
  else chars ".jpg"

/-- The destination filename built by `run_full_simulation`:
`f"{page}_{page_seq}_{sanitize_filename(tag)}_{safe_author}{ext}"`. -/
def build_fname (page seq : Nat) (tag author ext : List Char) : List Char :=
  natChars page ++ ['_'] ++ natChars seq ++ ['_'] ++ sanitize_filename tag ++ ['_'] ++
    sanitize_filename author ++ ext

/-- The full destination filename for a chosen candidate URL: the extension
comes from the chosen URL's path, detected before any download happens. -/
def chosen_fname (chosenUrl : List Char) (page seq : Nat) (tag author : List Char) :
    List Char :=
  build_fname page seq tag author (extOfPath (pathOfUrl chosenUrl))

/-! ## Asset ledger and the worker's dedup-by-hash success path -/

/-- One row of the `images` table. -/
structure LedgerRec where
  url : List Char
  saved_path : List Char
  status : Nat
  size : Nat
  md5 : List Char
deriving DecidableEq

/-- Embedding of `DBManager.exists`: is there a row for this URL? -/
def db_exists (db : List LedgerRec) (u : List Char) : Bool :=
  db.any fun r => r.url == u

/-- Embedding of `DBManager.insert`: `INSERT OR REPLACE` keyed on `url` — any prior row for
the URL is removed and the new row appended; a missing hash is stored as the
empty string (`md5 or ''`). -/
def db_insert (db : List LedgerRec) (u sp : List Char) (status size : Nat)
    (md5v : Option (List Char)) : List LedgerRec :=
  (db.filter fun r => r.url != u) ++ [⟨u, sp, status, size, md5v.getD []⟩]

/-- Embedding of `DBManager.find_by_md5`: the first row whose hash matches, as a
`(url, saved_path)` pair. -/
def find_by_md5 (db : List LedgerRec) (m : List Char) : Option (List Char × List Char) :=
  (db.find? fun r => r.md5 == m).map fun r => (r.url, r.saved_path)

/-- The `saved_path` recorded for a URL. -/
def saved_path_of (db : List LedgerRec) (u : List Char) : Option (List Char) :=
  (db.find? fun r => r.url == u).map fun r => r.saved_path

/-- Python's `status or 200`: `None` and 0 both fall back to 200. -/
def or200 : Option Nat → Nat
  | none => 200
  | some s => if s = 0 then 200 else s

/-- The ledger plus the set of downloaded files on disk. -/
structure LedgerState where
  db : List LedgerRec
  disk : List (List Char)
deriving DecidableEq

/-- The success branch of `download_worker_loop` for one task: the transfer
has just published the file at `sp`; its hash `md5v` is looked up in the
ledger, and on a duplicate the fresh file is deleted and the URL recorded
against the duplicate's path, otherwise the URL is recorded against its own
path. -/
def worker_success (st : LedgerState) (u sp md5v : List Char) (status : Option Nat)
    (size : Nat) : LedgerState :=
  let disk1 := sp :: st.disk
  match find_by_md5 st.db md5v with
  | some dup =>
    ⟨db_insert st.db u dup.2 (or200 status) size (some md5v), disk1.filter fun q => q != sp⟩
  | none => ⟨db_insert st.db u sp (or200 status) size (some md5v), disk1⟩

/-! ## Progress counters, worker terminal branches, producer enqueue -/

/-- The shared `ProgressStats` counters (every mutation in the source is
performed under one lock, so a run is a sequence of these operations). -/
structure ProgressStats where
  total_queued : Nat
  success : Nat
  failed : Nat
  skipped : Nat
deriving DecidableEq

/-- Fresh counters at run start. -/
def initStats : ProgressStats := ⟨0, 0, 0, 0⟩

/-- Embedding of `ProgressStats.inc_total`. -/
def inc_total (st : ProgressStats) (n : Nat) : ProgressStats :=
  { st with total_queued := st.total_queued + n }

/-- Embedding of `ProgressStats.inc_success`. -/
def inc_success (st : ProgressStats) : ProgressStats :=
  { st with success := st.success + 1 }

/-- Embedding of `ProgressStats.inc_failed`. -/
def inc_failed (st : ProgressStats) : ProgressStats :=
  { st with failed := st.failed + 1 }

/-- Embedding of `ProgressStats.inc_skipped`. -/
def inc_skipped (st : ProgressStats) : ProgressStats :=
  { st with skipped := st.skipped + 1 }

/-- The three terminal outcomes a task can reach. -/
inductive TaskOutcome where
  | success
  | failure
  | skip
deriving DecidableEq

/-- Which terminal branch `download_worker_loop` takes for a dequeued task:
skip when the ledger already has the URL, success when the download succeeded,
failure otherwise (including the worker's exception handler). -/
def worker_outcome (dbHas okDl : Bool) : TaskOutcome :=
  if dbHas then .skip else if okDl then .success else .failure

/-- The counter update of one terminal branch. -/
def applyOutcome (o : TaskOutcome) (st : ProgressStats) : ProgressStats :=
  match o with
  | .success => inc_success st
  | .failure => inc_failed st
  | .skip => inc_skipped st

/-- Counters after the producer has queued `n` tasks (one `inc_total 1`
per task collected into `all_tasks`). -/
def queueAll : Nat → ProgressStats → ProgressStats
  | 0, st => st
  | n + 1, st => inc_total (queueAll n st) 1

/-- Counters of a run in which `n` tasks were queued and the terminal
outcomes in `outs` have been recorded so far (in any serialized order). -/
def runCounters (n : Nat) (outs : List TaskOutcome) : ProgressStats :=
  outs.foldl (fun st o => applyOutcome o st) (queueAll n initStats)

/-- Sum of the terminal counters, the quantity the coordinator's polling loop
compares against `total_queued`. -/
def termSum (st : ProgressStats) : Nat := st.success + st.failed + st.skipped

/-- Enqueue attempt ceiling of the producer loop (`range(10)`). -/
def PUT_ATTEMPTS : Nat := 10

/-- The producer's bounded retry loop for one `task_q.put`: `oracle i` tells
whether the i-th `put` attempt succeeds (the queue had room within the
timeout); returns the index of the first successful attempt among the next
`fuel` ones. -/
def tryPutFrom (oracle : Nat → Bool) : Nat → Nat → Option Nat
  | _, 0 => none
  | i, fuel + 1 => if oracle i then some i else tryPutFrom oracle (i + 1) fuel

/-- The whole retry loop: up to `PUT_ATTEMPTS` attempts starting at 0
(the 5-second sleeps between attempts are outside the model). -/
def enqueue_with_retry (oracle : Nat → Bool) : Option Nat :=
  tryPutFrom oracle 0 PUT_ATTEMPTS

/-- The producer's handling of one task: if some attempt succeeded the task
is in the queue and the counters are untouched; if every attempt found the
queue full the task is dropped and counted as skipped, and the producer moves
on (the function returns rather than blocking). -/
def producer_enqueue (oracle : Nat → Bool) (st : ProgressStats) : ProgressStats × Bool :=
  match enqueue_with_retry oracle with
  | some _ => (st, true)
  | none => (inc_skipped st, false)

/-! ## Helper lemmas -/

theorem mem_dedupAux {x : List Char} :
    ∀ (l seen : List (List Char)), x ∈ dedupAux seen l ↔ x ∈ l ∧ x ∉ seen := by
  intro l
  induction l with
  | nil => intro seen; simp [dedupAux]
  | cons c rest ih =>
    intro seen
    by_cases hc : c ∈ seen
    · rw [show dedupAux seen (c :: rest) = dedupAux seen rest from by simp [dedupAux, hc],
        ih]
      constructor
      · rintro ⟨hx, hs⟩; exact ⟨List.mem_cons_of_mem c hx, hs⟩
      · rintro ⟨hx, hs⟩
        rcases List.mem_cons.mp hx with h1 | h1
        · exact absurd (h1 ▸ hc) hs
        · exact ⟨h1, hs⟩
    · rw [show dedupAux seen (c :: rest) = c :: dedupAux (c :: seen) rest from by
        simp [dedupAux, hc]]
      constructor
      · intro hmem
        rcases List.mem_cons.mp hmem with h1 | h1
        · exact ⟨List.mem_cons.mpr (Or.inl h1), h1 ▸ hc⟩
        · obtain ⟨hx, hs⟩ := (ih (c :: seen)).mp h1
          exact ⟨List.mem_cons_of_mem c hx, fun hmem2 => hs (List.mem_cons_of_mem c hmem2)⟩
      · rintro ⟨hx, hs⟩
        rcases List.mem_cons.mp hx with h1 | h1
        · exact List.mem_cons.mpr (Or.inl h1)
        · by_cases hxc : x = c
          · exact List.mem_cons.mpr (Or.inl hxc)
          · refine List.mem_cons.mpr (Or.inr ((ih (c :: seen)).mpr ⟨h1, ?_⟩))
            intro hmem2
            rcases List.mem_cons.mp hmem2 with h2 | h2
            · exact hxc h2
            · exact hs h2

theorem dedupAux_nodup :
    ∀ (l seen : List (List Char)), (dedupAux seen l).Nodup := by
  intro l
  induction l with
  | nil => intro seen; simp [dedupAux]
  | cons c rest ih =>
    intro seen
    by_cases hc : c ∈ seen
    · simpa [dedupAux, hc] using ih seen
    · simp only [dedupAux, if_neg hc, List.nodup_cons]
      refine ⟨fun hmem => ?_, ih (c :: seen)⟩
      exact ((mem_dedupAux rest (c :: seen)).mp hmem).2 (List.mem_cons_self c seen)

theorem mem_dedupFirst {x : List Char} (l : List (List Char)) :
    x ∈ dedupFirst l ↔ x ∈ l := by
  simp [dedupFirst, mem_dedupAux]

theorem dedupFirst_nodup (l : List (List Char)) : (dedupFirst l).Nodup :=
  dedupAux_nodup l []

theorem dedupFirst_cons (a : List Char) (l : List (List Char)) :
    dedupFirst (a :: l) = a :: dedupAux [a] l := by
  simp [dedupFirst, dedupAux]

theorem tryPutFrom_none_iff (oracle : Nat → Bool) :
    ∀ fuel i, tryPutFrom oracle i fuel = none ↔ ∀ j, j < fuel → oracle (i + j) = false := by
  intro fuel
  induction fuel with
  | zero => intro i; simp [tryPutFrom]
  | succ f ih =>
    intro i
    cases h : oracle i with
    | true =>
      rw [show tryPutFrom oracle i (f + 1) = some i from by simp [tryPutFrom, h]]
      constructor
      · intro hn; cases hn
      · intro hall
        exfalso
        have h0 := hall 0 (Nat.succ_pos f)
        rw [Nat.add_zero, h] at h0
        cases h0
    | false =>
      rw [show tryPutFrom oracle i (f + 1) = tryPutFrom oracle (i + 1) f from by
        simp [tryPutFrom, h], ih]
      constructor
      · intro hall j hj
        match j with
        | 0 => rw [Nat.add_zero]; exact h
        | j' + 1 =>
          rw [show i + (j' + 1) = i + 1 + j' by omega]
          exact hall j' (by omega)
      · intro hall j hj
        rw [show i + 1 + j = i + (j + 1) by omega]
        exact hall (j + 1) (by omega)

theorem queueAll_spec (n : Nat) :
    queueAll n initStats = ⟨n, 0, 0, 0⟩ := by
  induction n with
  | zero => rfl
  | succ k ih => simp [queueAll, ih, inc_total]

theorem applyOutcome_step (o : TaskOutcome) (st : ProgressStats) :
    termSum (applyOutcome o st) = termSum st + 1 ∧
    (applyOutcome o st).total_queued = st.total_queued ∧
    st.success ≤ (applyOutcome o st).success ∧
    st.failed ≤ (applyOutcome o st).failed ∧
    st.skipped ≤ (applyOutcome o st).skipped := by
  cases o <;>
    simp [applyOutcome, termSum, inc_success, inc_failed, inc_skipped] <;> omega

theorem foldl_applyOutcome (outs : List TaskOutcome) :
    ∀ st : ProgressStats,
      termSum (outs.foldl (fun st o => applyOutcome o st) st) = termSum st + outs.length ∧
      (outs.foldl (fun st o => applyOutcome o st) st).total_queued = st.total_queued := by
  induction outs with
  | nil => intro st; simp
  | cons o rest ih =>
    intro st
    have hstep := applyOutcome_step o st
    have hrest := ih (applyOutcome o st)
    simp only [List.foldl_cons, List.length_cons]
    refine ⟨?_, ?_⟩
    · rw [hrest.1, hstep.1]; omega
    · rw [hrest.2, hstep.2.1]

/-! ## Claims -/

/-- C10: `sanitize_filename` is idempotent — its output never contains a
character of the replaced class `[\\/:*?"<>|]` (every such character becomes
`_`, every other character passes through), so applying it twice equals
applying it once. -/
theorem c10_sanitize_idempotent (s : List Char) :
    sanitize_filename (sanitize_filename s) = sanitize_filename s ∧
    ∀ c, c ∈ badChars → c ∉ sanitize_filename s := by
  constructor
  · unfold sanitize_filename
    rw [List.map_map]
    refine List.map_congr_left fun c _ => ?_
    by_cases h : c ∈ badChars
    · simp [Function.comp, h]
    · simp [Function.comp, h]
  · intro c hc hmem
    unfold sanitize_filename at hmem
    rw [List.mem_map] at hmem
    obtain ⟨a, _, ha⟩ := hmem
    by_cases h : a ∈ badChars
    · rw [if_pos h] at ha
      rw [← ha] at hc
      exact absurd hc (by decide)
    · rw [if_neg h] at ha
      exact h (ha ▸ hc)

/-- Witness for C10 at a concrete input containing a replaced character. -/
theorem c10_witness :
    sanitize_filename (sanitize_filename (chars "a:b")) = sanitize_filename (chars "a:b") ∧
    ':' ∉ sanitize_filename (chars "a:b") :=
  ⟨(c10_sanitize_idempotent (chars "a:b")).1,
   (c10_sanitize_idempotent (chars "a:b")).2 ':' (by decide)⟩

/-- C8: the producer's enqueue for one task retries up to `PUT_ATTEMPTS`
times rather than failing on the first full queue — if any attempt within the
ceiling finds room the task is enqueued and no counter changes; if every
attempt finds the queue full the task is dropped, counted as skipped, and the
producer returns to proceed with the next task. -/
theorem c8_bounded_enqueue_retry (oracle : Nat → Bool) (st : ProgressStats) :
    ((∃ i, i < PUT_ATTEMPTS ∧ oracle i = true) →
        producer_enqueue oracle st = (st, true)) ∧
    ((∀ i, i < PUT_ATTEMPTS → oracle i = false) →
        producer_enqueue oracle st = (inc_skipped st, false)) := by
  constructor
  · rintro ⟨i, hi, htrue⟩
    unfold producer_enqueue
    cases h : enqueue_with_retry oracle with
    | some k => rfl
    | none =>
      exfalso
      have h' : tryPutFrom oracle 0 PUT_ATTEMPTS = none := h
      have := (tryPutFrom_none_iff oracle PUT_ATTEMPTS 0).mp h' i hi
      rw [Nat.zero_add, htrue] at this
      cases this
  · intro hall
    unfold producer_enqueue
    have h' : enqueue_with_retry oracle = none := by
      unfold enqueue_with_retry
      exact (tryPutFrom_none_iff oracle PUT_ATTEMPTS 0).mpr
        (fun j hj => by rw [Nat.zero_add]; exact hall j hj)
    rw [h']

/-- Witness for C8: an oracle whose first two attempts find the queue full
but whose third succeeds still enqueues (retry rather than immediate
failure), and an always-full oracle drops the task as skipped. -/
theorem c8_witness :
    producer_enqueue (fun i => decide (3 ≤ i)) initStats = (initStats, true) ∧
    producer_enqueue (fun _ => false) initStats = (inc_skipped initStats, false) :=
  ⟨(c8_bounded_enqueue_retry (fun i => decide (3 ≤ i)) initStats).1
      ⟨3, by decide, by decide⟩,
   (c8_bounded_enqueue_retry (fun _ => false) initStats).2 (fun _ _ => rfl)⟩

/-- C9: every dequeued task takes exactly one terminal branch, incrementing
exactly one of `success`/`failed`/`skipped` by one, never touching
`total_queued`, and never decreasing any counter; over a serialized run of
`n` queued tasks in which the outcomes `outs` have been recorded so far,
`success + failed + skipped = |outs| ≤ total_queued = n`, with equality
exactly when every task has reached a terminal outcome — the condition the
coordinator's polling loop waits on. -/
theorem c9_counter_invariant :
    (∀ (dbHas okDl : Bool) (st : ProgressStats),
        termSum (applyOutcome (worker_outcome dbHas okDl) st) = termSum st + 1 ∧
        (applyOutcome (worker_outcome dbHas okDl) st).total_queued = st.total_queued ∧
        st.success ≤ (applyOutcome (worker_outcome dbHas okDl) st).success ∧
        st.failed ≤ (applyOutcome (worker_outcome dbHas okDl) st).failed ∧
        st.skipped ≤ (applyOutcome (worker_outcome dbHas okDl) st).skipped) ∧
    (∀ (n : Nat) (outs : List TaskOutcome), outs.length ≤ n →
        termSum (runCounters n outs) = outs.length ∧
        (runCounters n outs).total_queued = n ∧
        (termSum (runCounters n outs) = (runCounters n outs).total_queued ↔
          outs.length = n)) := by
  constructor
  · intro dbHas okDl st
    exact applyOutcome_step (worker_outcome dbHas okDl) st
  · intro n outs hle
    have hfold := foldl_applyOutcome outs (queueAll n initStats)
    have hq := queueAll_spec n
    unfold runCounters
    have h1 : termSum (outs.foldl (fun st o => applyOutcome o st) (queueAll n initStats)) =
        outs.length := by
      rw [hfold.1, hq]; simp [termSum]
    have h2 : (outs.foldl (fun st o => applyOutcome o st) (queueAll n initStats)).total_queued =
        n := by
      rw [hfold.2, hq]
    exact ⟨h1, h2, by rw [h1, h2]⟩

/-- Witness for C9: a run of 3 queued tasks with two outcomes recorded so far
(one success via a fresh URL, one skip via a ledger hit). -/
theorem c9_witness :
    termSum (applyOutcome (worker_outcome false true) initStats) = termSum initStats + 1 ∧
    termSum (runCounters 3 [.success, .skip]) = 2 ∧
    (runCounters 3 [.success, .skip]).total_queued = 3 ∧
    (termSum (runCounters 3 [.success, .skip]) =
        (runCounters 3 [.success, .skip]).total_queued ↔
      ([TaskOutcome.success, TaskOutcome.skip] : List TaskOutcome).length = 3) :=
  ⟨(c9_counter_invariant.1 false true initStats).1,
   ((c9_counter_invariant.2 3 [.success, .skip] (by decide)).1),
   ((c9_counter_invariant.2 3 [.success, .skip] (by decide)).2.1),
   ((c9_counter_invariant.2 3 [.success, .skip] (by decide)).2.2)⟩

theorem attempt_eq_exc (fs : FS) (p : ProbeResponse) (g : GetResponse)
    (hexc : g.exc = true) :
    attempt_download_with_resume fs p g = ⟨false, none, 0, fs, rangeStartOf fs p⟩ := by
  unfold attempt_download_with_resume
  rw [if_pos hexc]

theorem attempt_eq_badstatus (fs : FS) (p : ProbeResponse) (g : GetResponse)
    (hexc : g.exc = false) (hst : ¬(g.status = some 200 ∨ g.status = some 206)) :
    attempt_download_with_resume fs p g = ⟨false, g.status, 0, fs, rangeStartOf fs p⟩ := by
  unfold attempt_download_with_resume
  rw [if_neg (by simp [hexc]), if_pos hst]

theorem attempt_eq_fail (fs : FS) (p : ProbeResponse) (g : GetResponse) (t : Nat)
    (hexc : g.exc = false) (hst : g.status = some 200 ∨ g.status = some 206)
    (hte : expectedTotalOf p g = some t)
    (hm : t ≠ 0 ∧ (streamed fs g).1.tmpSize ≠ t) :
    attempt_download_with_resume fs p g =
      ⟨false, g.status, (streamed fs g).1.tmpSize, (streamed fs g).1,
        rangeStartOf fs p⟩ := by
  unfold attempt_download_with_resume
  rw [if_neg (by simp [hexc]), if_neg (not_not_intro hst)]
  simp only [hte]
  rw [if_pos hm]

theorem attempt_eq_publish (fs : FS) (p : ProbeResponse) (g : GetResponse) (t : Nat)
    (hexc : g.exc = false) (hst : g.status = some 200 ∨ g.status = some 206)
    (hte : expectedTotalOf p g = some t)
    (hm : ¬(t ≠ 0 ∧ (streamed fs g).1.tmpSize ≠ t)) :
    attempt_download_with_resume fs p g =
      ⟨true, g.status, (streamed fs g).1.tmpSize,
        ⟨false, 0, true, (streamed fs g).1.tmpSize⟩, rangeStartOf fs p⟩ := by
  unfold attempt_download_with_resume
  rw [if_neg (by simp [hexc]), if_neg (not_not_intro hst)]
  simp only [hte]
  rw [if_neg hm]

/-- C1: with a staging file of `S` bytes (`0 < S`) and an expected length `L`
learned from the probe with `S < L`, the transfer issues its GET with a
`Range` header starting at byte `S`; and whenever the attempt returns ok —
assuming any `content-range` header the server sends reports the same total
`L` for the asset — the published destination file has size exactly `L`. -/
theorem c1_resume_ranged_request_and_final_size (fs : FS) (p : ProbeResponse)
    (g : GetResponse) (S L : Nat)
    (h1 : fs.tmpExists = true) (h2 : fs.tmpSize = S) (h3 : 0 < S)
    (h4 : expectedLenOf p = some L) (h5 : S < L)
    (h6 : g.crPresent = true → g.crTotal = some L) :
    (attempt_download_with_resume fs p g).rangeStart = some S ∧
    ((attempt_download_with_resume fs p g).ok = true →
      (attempt_download_with_resume fs p g).fs.destExists = true ∧
      (attempt_download_with_resume fs p g).fs.destSize = L) := by
  have hex : existingOf fs = S := by simp [existingOf, h1, h2]
  have hrs : rangeStartOf fs p = some S := by
    simp only [rangeStartOf, h4, hex]
    rw [if_pos ⟨by omega, by omega, h5⟩]
  have hte : expectedTotalOf p g = some L := by
    unfold expectedTotalOf
    cases hcr : g.crPresent with
    | true => rw [if_pos rfl]; exact h6 hcr
    | false => rw [if_neg (by simp)]; exact h4
  cases hexc : g.exc with
  | true => rw [attempt_eq_exc fs p g hexc, hrs]; exact ⟨rfl, by intro hok; cases hok⟩
  | false =>
    by_cases hst : g.status = some 200 ∨ g.status = some 206
    · by_cases hmis : L ≠ 0 ∧ (streamed fs g).1.tmpSize ≠ L
      · rw [attempt_eq_fail fs p g L hexc hst hte hmis, hrs]
        exact ⟨rfl, by intro hok; cases hok⟩
      · rw [attempt_eq_publish fs p g L hexc hst hte hmis, hrs]
        refine ⟨rfl, fun _ => ⟨rfl, ?_⟩⟩
        push_neg at hmis
        exact hmis (by omega)
    · rw [attempt_eq_badstatus fs p g hexc hst, hrs]
      exact ⟨rfl, by intro hok; cases hok⟩

/-- Witness for C1: staging holds 3 of 10 expected bytes; the GET is ranged at
byte 3 and a consistent 206 with 7 body bytes publishes a 10-byte file. -/
theorem c1_witness :
    (attempt_download_with_resume ⟨true, 3, false, 0⟩ ⟨false, some 200, some 10⟩
        ⟨false, some 206, true, some 10, 7⟩).rangeStart = some 3 ∧
    ((attempt_download_with_resume ⟨true, 3, false, 0⟩ ⟨false, some 200, some 10⟩
        ⟨false, some 206, true, some 10, 7⟩).ok = true →
      (attempt_download_with_resume ⟨true, 3, false, 0⟩ ⟨false, some 200, some 10⟩
          ⟨false, some 206, true, some 10, 7⟩).fs.destExists = true ∧
      (attempt_download_with_resume ⟨true, 3, false, 0⟩ ⟨false, some 200, some 10⟩
          ⟨false, some 206, true, some 10, 7⟩).fs.destSize = 10) :=
  c1_resume_ranged_request_and_final_size ⟨true, 3, false, 0⟩ ⟨false, some 200, some 10⟩
    ⟨false, some 206, true, some 10, 7⟩ 3 10 rfl rfl (by decide) (by decide) (by decide)
    (fun _ => rfl)

/-- Counterexample to C3 as stated: when the expected total is 0 (a probe
reporting `content-length: 0` on a plain 200 response), the Python truthiness
guard `if total_expected and …` skips the reconciliation, so an attempt that
streamed 5 bytes against an expected total of 0 — a disagreement — still
returns ok and publishes, instead of returning not-ok. -/
theorem c3_counterexample :
    expectedTotalOf ⟨false, some 200, some 0⟩ ⟨false, some 200, false, none, 5⟩ = some 0 ∧
    (attempt_download_with_resume ⟨false, 0, false, 0⟩ ⟨false, some 200, some 0⟩
        ⟨false, some 200, false, none, 5⟩).size = 5 ∧
    (attempt_download_with_resume ⟨false, 0, false, 0⟩ ⟨false, some 200, some 0⟩
        ⟨false, some 200, false, none, 5⟩).ok = true := by
  exact ⟨rfl, rfl, rfl⟩

/-- C3 (amended: the expected total must be nonzero, since the code's
truthiness guard skips the check for a zero expected total): whenever the
streamed response completed (no exception, status 200 or 206), the expected
total is a nonzero `t`, and the resulting staging size disagrees with `t`,
the attempt returns not-ok and leaves the staging file on disk exactly as the
stream wrote it — it is not deleted, and the destination is untouched — so a
later attempt can resume from it. -/
theorem c3_size_mismatch_preserves_staging (fs : FS) (p : ProbeResponse)
    (g : GetResponse) (t : Nat)
    (hexc : g.exc = false) (hst : g.status = some 200 ∨ g.status = some 206)
    (hte : expectedTotalOf p g = some t) (ht : t ≠ 0)
    (hmis : (streamed fs g).1.tmpSize ≠ t) :
    (attempt_download_with_resume fs p g).ok = false ∧
    (attempt_download_with_resume fs p g).fs = (streamed fs g).1 ∧
    (streamed fs g).1.tmpExists = true ∧
    (attempt_download_with_resume fs p g).fs.destExists = fs.destExists ∧
    (attempt_download_with_resume fs p g).fs.destSize = fs.destSize := by
  have htmp : (streamed fs g).1.tmpExists = true := by simp [streamed]
  have hde : (streamed fs g).1.destExists = fs.destExists := by
    simp only [streamed]
    by_cases hstale : g.status = some 200 ∧ existingOf fs ≠ 0 <;> simp [hstale]
  have hds : (streamed fs g).1.destSize = fs.destSize := by
    simp only [streamed]
    by_cases hstale : g.status = some 200 ∧ existingOf fs ≠ 0 <;> simp [hstale]
  rw [attempt_eq_fail fs p g t hexc hst hte ⟨ht, hmis⟩]
  exact ⟨rfl, rfl, htmp, hde, hds⟩

/-- Witness for C3: an appended stream left 7 bytes in staging against an
expected total of 10; the attempt fails and the 7-byte staging file
survives. -/
theorem c3_witness :
    (attempt_download_with_resume ⟨true, 3, false, 0⟩ ⟨false, some 200, some 10⟩
        ⟨false, some 206, true, some 10, 4⟩).ok = false ∧
    (attempt_download_with_resume ⟨true, 3, false, 0⟩ ⟨false, some 200, some 10⟩
        ⟨false, some 206, true, some 10, 4⟩).fs =
      (streamed ⟨true, 3, false, 0⟩ ⟨false, some 206, true, some 10, 4⟩).1 ∧
    (streamed ⟨true, 3, false, 0⟩ ⟨false, some 206, true, some 10, 4⟩).1.tmpExists = true ∧
    (attempt_download_with_resume ⟨true, 3, false, 0⟩ ⟨false, some 200, some 10⟩
        ⟨false, some 206, true, some 10, 4⟩).fs.destExists = (false : Bool) ∧
    (attempt_download_with_resume ⟨true, 3, false, 0⟩ ⟨false, some 200, some 10⟩
        ⟨false, some 206, true, some 10, 4⟩).fs.destSize = 0 :=
  c3_size_mismatch_preserves_staging ⟨true, 3, false, 0⟩ ⟨false, some 200, some 10⟩
    ⟨false, some 206, true, some 10, 4⟩ 10 rfl (Or.inr rfl) rfl (by decide) (by decide)

/-- C2: two distinct URLs whose downloads produced the same content hash,
written to distinct paths, processed one after the other (the serialized
interleaving the counter lock and the ledger's per-call atomicity produce):
after both success paths run, the first worker's file is the only one of the
two left on disk — the later worker deleted its freshly written file — and
both URLs' ledger rows record the surviving path. -/
theorem c2_dedup_single_survivor (st0 : LedgerState) (u1 u2 p1 p2 hsh : List Char)
    (s1 s2 : Option Nat) (n1 n2 : Nat)
    (hu : u1 ≠ u2) (hp : p1 ≠ p2)
    (hdb : ∀ r ∈ st0.db, r.md5 ≠ hsh) :
    p1 ∈ (worker_success (worker_success st0 u1 p1 hsh s1 n1) u2 p2 hsh s2 n2).disk ∧
    p2 ∉ (worker_success (worker_success st0 u1 p1 hsh s1 n1) u2 p2 hsh s2 n2).disk ∧
    saved_path_of (worker_success (worker_success st0 u1 p1 hsh s1 n1) u2 p2 hsh s2 n2).db
      u1 = some p1 ∧
    saved_path_of (worker_success (worker_success st0 u1 p1 hsh s1 n1) u2 p2 hsh s2 n2).db
      u2 = some p1 := by
  have hfind1 : find_by_md5 st0.db hsh = none := by
    unfold find_by_md5
    rw [List.find?_eq_none.mpr (fun r hr => by simpa using hdb r hr)]
    rfl
  have hst1 : worker_success st0 u1 p1 hsh s1 n1 =
      ⟨db_insert st0.db u1 p1 (or200 s1) n1 (some hsh), p1 :: st0.disk⟩ := by
    unfold worker_success
    rw [hfind1]
  have hfilter_none :
      (st0.db.filter fun r => r.url != u1).find? (fun r => r.md5 == hsh) = none :=
    List.find?_eq_none.mpr fun r hr => by
      simpa using hdb r (List.mem_filter.mp hr).1
  have hfind2 : find_by_md5 (db_insert st0.db u1 p1 (or200 s1) n1 (some hsh)) hsh =
      some (u1, p1) := by
    unfold find_by_md5 db_insert
    rw [List.find?_append, hfilter_none]
    simp
  have hst2 : worker_success (worker_success st0 u1 p1 hsh s1 n1) u2 p2 hsh s2 n2 =
      ⟨db_insert (db_insert st0.db u1 p1 (or200 s1) n1 (some hsh)) u2 p1 (or200 s2) n2
          (some hsh),
        ((p2 : List Char) :: p1 :: st0.disk).filter fun q => q != p2⟩ := by
    rw [hst1]
    unfold worker_success
    rw [hfind2]
  rw [hst2]
  refine ⟨?_, ?_, ?_, ?_⟩
  · exact List.mem_filter.mpr ⟨by simp, by simpa using hp⟩
  · intro hmem
    have := (List.mem_filter.mp hmem).2
    simp at this
  · unfold saved_path_of db_insert
    rw [List.filter_append, List.find?_append]
    have hA : ((st0.db.filter fun r => r.url != u1).filter fun r => r.url != u2).find?
        (fun r => r.url == u1) = none :=
      List.find?_eq_none.mpr fun r hr => by
        have := (List.mem_filter.mp (List.mem_filter.mp hr).1).2
        simpa using this
    have hrec1 : (([⟨u1, p1, or200 s1, n1, (some hsh).getD [], ⟩] :
        List LedgerRec).filter fun r => r.url != u2) = [⟨u1, p1, or200 s1, n1, hsh⟩] := by
      simp [hu]
    rw [hrec1] at *
    rw [List.find?_append, hA]
    simp
  · unfold saved_path_of db_insert
    rw [List.find?_append]
    have hB : (((st0.db.filter fun r => r.url != u1) ++
          [(⟨u1, p1, or200 s1, n1, (some hsh).getD []⟩ : LedgerRec)]).filter
            fun r => r.url != u2).find? (fun r => r.url == u2) = none :=
      List.find?_eq_none.mpr fun r hr => by
        have := (List.mem_filter.mp hr).2
        simpa using this
    rw [hB]
    simp

/-- Witness for C2 at concrete URLs, paths and hash over an empty ledger. -/
theorem c2_witness :
    chars "p" ∈ (worker_success (worker_success ⟨[], []⟩ (chars "a") (chars "p") (chars "h")
        (some 200) 5) (chars "b") (chars "q") (chars "h") (some 200) 5).disk ∧
    chars "q" ∉ (worker_success (worker_success ⟨[], []⟩ (chars "a") (chars "p") (chars "h")
        (some 200) 5) (chars "b") (chars "q") (chars "h") (some 200) 5).disk ∧
    saved_path_of (worker_success (worker_success ⟨[], []⟩ (chars "a") (chars "p")
        (chars "h") (some 200) 5) (chars "b") (chars "q") (chars "h") (some 200) 5).db
      (chars "a") = some (chars "p") ∧
    saved_path_of (worker_success (worker_success ⟨[], []⟩ (chars "a") (chars "p")
        (chars "h") (some 200) 5) (chars "b") (chars "q") (chars "h") (some 200) 5).db
      (chars "b") = some (chars "p") :=
  c2_dedup_single_survivor ⟨[], []⟩ (chars "a") (chars "b") (chars "p") (chars "q")
    (chars "h") (some 200) (some 200) 5 5 (by decide) (by decide) (by simp)

theorem runAttempts_succ (env : Nat → ProbeResponse × GetResponse) (cand : List Char)
    (k : Nat) (fs : FS) (i : Nat) (last : Option Nat) :
    runAttempts env cand (k + 1) fs i last =
      if (attempt_download_with_resume fs (env i).1 (env i).2).ok then
        ⟨true, (attempt_download_with_resume fs (env i).1 (env i).2).status,
          (attempt_download_with_resume fs (env i).1 (env i).2).size,
          (attempt_download_with_resume fs (env i).1 (env i).2).fs, some cand, i + 1⟩
      else
        runAttempts env cand k (attempt_download_with_resume fs (env i).1 (env i).2).fs
          (i + 1) (attempt_download_with_resume fs (env i).1 (env i).2).status := rfl

theorem runCands_cons (env : Nat → ProbeResponse × GetResponse) (c : List Char)
    (rest : List (List Char)) (fs : FS) (i : Nat) (last : Option Nat) :
    runCands env (c :: rest) fs i last =
      if (runAttempts env c MAX_DOWNLOAD_RETRIES fs i last).ok then
        runAttempts env c MAX_DOWNLOAD_RETRIES fs i last
      else
        runCands env rest (runAttempts env c MAX_DOWNLOAD_RETRIES fs i last).fs
          (runAttempts env c MAX_DOWNLOAD_RETRIES fs i last).calls
          (runAttempts env c MAX_DOWNLOAD_RETRIES fs i last).status := rfl

/-- Network environment refuting C4: every attempt on the first (`.jpg`)
candidate is a 404, and the first attempt on the second (`.png`) candidate is
a clean 200 of 7 bytes matching its probe. -/
def env404png (i : Nat) : ProbeResponse × GetResponse :=
  if i < MAX_DOWNLOAD_RETRIES then
    (⟨false, some 404, none⟩, ⟨false, some 404, false, none, 0⟩)
  else (⟨false, some 200, some 7⟩, ⟨false, some 200, false, none, 7⟩)

/-- Counterexample to C4 as stated: for the chosen candidate
`…/a_p0.jpg`, the `.jpg` attempts all 404 and the `.png` fallback succeeds
(the winner is the `.png` candidate), yet the saved filename — fixed from the
chosen candidate before `download_with_backoff` ever runs — still carries the
`.jpg` extension, not the successful candidate's `.png`. -/
theorem c4_counterexample :
    (download_with_backoff env404png (chars "https://i.pximg.net/img-original/img/a_p0.jpg")
        ⟨false, 0, false, 0⟩).ok = true ∧
    (download_with_backoff env404png (chars "https://i.pximg.net/img-original/img/a_p0.jpg")
        ⟨false, 0, false, 0⟩).winner =
      some (chars "https://i.pximg.net/img-original/img/a_p0.png") ∧
    chosen_fname (chars "https://i.pximg.net/img-original/img/a_p0.jpg") 1 1 (chars "T")
      (chars "A") = chars "1_1_T_A.jpg" ∧
    chars "1_1_T_A.jpg" ≠ chars "1_1_T_A.png" := by
  refine ⟨by decide, by decide, by decide, by decide⟩

/-- C4 (amended: the extension in the saved filename reflects the chosen
candidate's extension, `.jpg`, because the destination path is built from the
chosen URL before the download and is reused unchanged by the fallback): when
the chosen URL ends in `.jpg`, all `.jpg` attempts fail and the first `.png`
attempt succeeds, the retry wrapper returns success with the `.png`
counterpart as the winning candidate, while the deterministic filename
(page, per-page sequence, sanitized tag, sanitized author) keeps `.jpg`. -/
theorem c4_png_fallback_keeps_chosen_extension
    (env : Nat → ProbeResponse × GetResponse) (fs : FS) (url : List Char)
    (page seq : Nat) (tag author : List Char)
    (hjpg : (chars ".jpg").isSuffixOf (url.map Char.toLower) = true)
    (hfail : (runAttempts env url MAX_DOWNLOAD_RETRIES fs 0 none).ok = false)
    (hpng : (attempt_download_with_resume
        (runAttempts env url MAX_DOWNLOAD_RETRIES fs 0 none).fs
        (env (runAttempts env url MAX_DOWNLOAD_RETRIES fs 0 none).calls).1
        (env (runAttempts env url MAX_DOWNLOAD_RETRIES fs 0 none).calls).2).ok = true)
    (hext : extOfPath (pathOfUrl url) = chars ".jpg") :
    (download_with_backoff env url fs).ok = true ∧
    (download_with_backoff env url fs).winner =
      some (url.take (url.length - 4) ++ chars ".png") ∧
    chosen_fname url page seq tag author =
      natChars page ++ ['_'] ++ natChars seq ++ ['_'] ++ sanitize_filename tag ++ ['_'] ++
        sanitize_filename author ++ chars ".jpg" := by
  have hcands : dwbCandidates url = [url, url.take (url.length - 4) ++ chars ".png"] := by
    simp [dwbCandidates, hjpg]
  set r1 := runAttempts env url MAX_DOWNLOAD_RETRIES fs 0 none with hr1
  have hstep : runAttempts env (url.take (url.length - 4) ++ chars ".png")
      MAX_DOWNLOAD_RETRIES r1.fs r1.calls r1.status =
      ⟨true, (attempt_download_with_resume r1.fs (env r1.calls).1 (env r1.calls).2).status,
        (attempt_download_with_resume r1.fs (env r1.calls).1 (env r1.calls).2).size,
        (attempt_download_with_resume r1.fs (env r1.calls).1 (env r1.calls).2).fs,
        some (url.take (url.length - 4) ++ chars ".png"), r1.calls + 1⟩ := by
    rw [show MAX_DOWNLOAD_RETRIES = 5 + 1 from rfl, runAttempts_succ, if_pos hpng]
  have hfull : download_with_backoff env url fs =
      ⟨true, (attempt_download_with_resume r1.fs (env r1.calls).1 (env r1.calls).2).status,
        (attempt_download_with_resume r1.fs (env r1.calls).1 (env r1.calls).2).size,
        (attempt_download_with_resume r1.fs (env r1.calls).1 (env r1.calls).2).fs,
        some (url.take (url.length - 4) ++ chars ".png"), r1.calls + 1⟩ := by
    unfold download_with_backoff
    rw [hcands, runCands_cons, ← hr1, if_neg (by simp [hfail]), runCands_cons, hstep]
    rw [if_pos rfl]
  rw [hfull]
  refine ⟨rfl, rfl, ?_⟩
  unfold chosen_fname build_fname
  rw [hext]

/-- Witness for C4's amended statement at the concrete 404/200 environment. -/
theorem c4_witness :
    (download_with_backoff env404png (chars "https://i.pximg.net/img-original/img/a_p0.jpg")
        ⟨false, 0, false, 0⟩).ok = true ∧
    (download_with_backoff env404png (chars "https://i.pximg.net/img-original/img/a_p0.jpg")
        ⟨false, 0, false, 0⟩).winner =
      some ((chars "https://i.pximg.net/img-original/img/a_p0.jpg").take
          ((chars "https://i.pximg.net/img-original/img/a_p0.jpg").length - 4) ++
        chars ".png") ∧
    chosen_fname (chars "https://i.pximg.net/img-original/img/a_p0.jpg") 2 3 (chars "Tag")
      (chars "Au") =
      natChars 2 ++ ['_'] ++ natChars 3 ++ ['_'] ++ sanitize_filename (chars "Tag") ++
        ['_'] ++ sanitize_filename (chars "Au") ++ chars ".jpg" :=
  c4_png_fallback_keeps_chosen_extension env404png ⟨false, 0, false, 0⟩
    (chars "https://i.pximg.net/img-original/img/a_p0.jpg") 2 3 (chars "Tag") (chars "Au")
    (by decide) (by decide) (by decide) (by decide)

theorem to_original_shape (u : List Char) (h : to_original_url u ≠ u) :
    ∃ p, rewriteCapture u = some p ∧
      to_original_url u =
        chars "https://i.pximg.net/img-original/img/" ++ p ++ chars "_p0.jpg" := by
  by_cases hu : u = []
  · exfalso
    apply h
    rw [hu]
    rfl
  · unfold to_original_url at h ⊢
    rw [if_neg hu] at h ⊢
    cases hrc : rewriteCapture u with
    | none => rw [hrc] at h; exact absurd rfl h
    | some p => exact ⟨p, rfl, rfl⟩

/-- C6: for every thumbnail whose (normalized) URL matches a recognized
rewrite pattern — `to_original_url` changes it — the candidate list starts
with the rewritten original URL, which is an absolute `https` URL ending in
the raster extension `.jpg`, and the list holds no duplicates (first-seen
order preserved by the dedup pass). -/
theorem c6_first_candidate_wellformed_nodup (s : List Char)
    (h : to_original_url (normalizeThumb s) ≠ normalizeThumb s) :
    (generate_candidates_from_thumb s MAX_PAGES_TO_EXPAND).head? =
      some (to_original_url (normalizeThumb s)) ∧
    chars "https://" <+: to_original_url (normalizeThumb s) ∧
    chars ".jpg" <:+ to_original_url (normalizeThumb s) ∧
    (generate_candidates_from_thumb s MAX_PAGES_TO_EXPAND).Nodup := by
  have hs : s ≠ [] := by
    intro he
    apply h
    rw [he]
    rfl
  obtain ⟨p, hrc, hshape⟩ := to_original_shape (normalizeThumb s) h
  have horig_ne : to_original_url (normalizeThumb s) ≠ [] := by
    intro hnil
    rw [hshape] at hnil
    have h1 := (List.append_eq_nil.mp hnil).1
    have h2 := (List.append_eq_nil.mp h1).1
    exact absurd h2 (by decide)
  have hform : generate_candidates_from_thumb s MAX_PAGES_TO_EXPAND =
      to_original_url (normalizeThumb s) ::
        dedupAux [to_original_url (normalizeThumb s)]
          ((if (chars ".jpg").isSuffixOf (to_original_url (normalizeThumb s)) then
              [replaceAll (chars ".jpg") (chars ".png") (to_original_url (normalizeThumb s))]
            else if (chars ".png").isSuffixOf (to_original_url (normalizeThumb s)) then
              [replaceAll (chars ".png") (chars ".jpg") (to_original_url (normalizeThumb s))]
            else []) ++ pageCands MAX_PAGES_TO_EXPAND (normalizeThumb s)) := by
    unfold generate_candidates_from_thumb primaryCands
    rw [if_neg hs, if_pos ⟨horig_ne, h⟩, List.singleton_append, List.cons_append,
      dedupFirst_cons]
  refine ⟨?_, ?_, ?_, ?_⟩
  · rw [hform]; rfl
  · rw [hshape]
    have h1 : chars "https://" <+: chars "https://i.pximg.net/img-original/img/" :=
      ⟨chars "i.pximg.net/img-original/img/", by decide⟩
    exact h1.trans ((List.prefix_append _ _).trans (List.prefix_append _ _))
  · rw [hshape]
    have h2 : chars ".jpg" <:+ chars "_p0.jpg" := ⟨chars "_p0", by decide⟩
    exact h2.trans (List.suffix_append _ _)
  · rw [hform, ← dedupFirst_cons]
    exact dedupFirst_nodup _

/-- Witness for C6 at a concrete square-thumbnail URL that the rewrite
cascade recognizes. -/
theorem c6_witness :
    (generate_candidates_from_thumb
        (chars "https://i.pximg.net/c/a/img-master/img/b_p0_square1200.jpg")
        MAX_PAGES_TO_EXPAND).head? =
      some (to_original_url (normalizeThumb
        (chars "https://i.pximg.net/c/a/img-master/img/b_p0_square1200.jpg"))) ∧
    chars "https://" <+: to_original_url (normalizeThumb
      (chars "https://i.pximg.net/c/a/img-master/img/b_p0_square1200.jpg")) ∧
    chars ".jpg" <:+ to_original_url (normalizeThumb
      (chars "https://i.pximg.net/c/a/img-master/img/b_p0_square1200.jpg")) ∧
    (generate_candidates_from_thumb
        (chars "https://i.pximg.net/c/a/img-master/img/b_p0_square1200.jpg")
        MAX_PAGES_TO_EXPAND).Nodup :=
  c6_first_candidate_wellformed_nodup
    (chars "https://i.pximg.net/c/a/img-master/img/b_p0_square1200.jpg") (by decide)

/-- Counterexample to C5 as stated: for
`https://i.pximg.net/c/x/img-master/img/a_p0.jpg` the plain rewrite matches
(the rewrite changes the normalized URL), yet the multi-page family is still
synthesized — the page-1 candidate is in the output — because the source
checks the `_p<N>` suffix pattern on the thumbnail unconditionally, not only
when no rewrite matched. -/
theorem c5_counterexample :
    to_original_url (normalizeThumb
        (chars "https://i.pximg.net/c/x/img-master/img/a_p0.jpg")) ≠
      normalizeThumb (chars "https://i.pximg.net/c/x/img-master/img/a_p0.jpg") ∧
    chars "https://i.pximg.net/c/x/img-master/img/a_p1.jpg" ∈
      generate_candidates_from_thumb
        (chars "https://i.pximg.net/c/x/img-master/img/a_p0.jpg")
        MAX_PAGES_TO_EXPAND := by
  refine ⟨by decide, by decide⟩

/-- C5 (amended: the multi-page family is synthesized exactly when the
normalized URL carries a `_p<N>.<raster-ext>` suffix, regardless of whether a
plain rewrite matched): whenever the multi-page pattern matches with base
`base`, every indexed candidate `base_p<i>.jpg`/`base_p<i>.png` for
`i < max_pages` is in the output; and when the pattern does not match, every
output candidate comes from the rewrite block, the date-path synthesis, or is
the normalized input — no indexed multi-page family is added. -/
theorem c5_multipage_synthesis :
    (∀ (s base : List Char), s ≠ [] →
        re_mp (normalizeThumb s) = some base →
        ∀ i, i < MAX_PAGES_TO_EXPAND →
          base ++ chars "_p" ++ natChars i ++ chars ".jpg" ∈
            generate_candidates_from_thumb s MAX_PAGES_TO_EXPAND ∧
          base ++ chars "_p" ++ natChars i ++ chars ".png" ∈
            generate_candidates_from_thumb s MAX_PAGES_TO_EXPAND) ∧
    (∀ (s c : List Char), re_mp (normalizeThumb s) = none →
        c ∈ generate_candidates_from_thumb s MAX_PAGES_TO_EXPAND →
        c ∈ primaryCands (normalizeThumb s) ∨
        (∃ bp, re_dp (normalizeThumb s) = some bp ∧
          (c = dpBase ++ bp ++ chars ".jpg" ∨ c = dpBase ++ bp ++ chars ".png")) ∨
        c = normalizeThumb s) := by
  constructor
  · intro s base hs hmp i hi
    have hpage : pageCands MAX_PAGES_TO_EXPAND (normalizeThumb s) =
        (List.range MAX_PAGES_TO_EXPAND).flatMap fun j =>
          [base ++ chars "_p" ++ natChars j ++ chars ".jpg",
           base ++ chars "_p" ++ natChars j ++ chars ".png"] := by
      unfold pageCands
      rw [hmp]
    constructor
    · unfold generate_candidates_from_thumb
      rw [if_neg hs, mem_dedupFirst]
      apply List.mem_append_right
      rw [hpage]
      exact List.mem_flatMap.mpr ⟨i, List.mem_range.mpr hi, by simp⟩
    · unfold generate_candidates_from_thumb
      rw [if_neg hs, mem_dedupFirst]
      apply List.mem_append_right
      rw [hpage]
      exact List.mem_flatMap.mpr ⟨i, List.mem_range.mpr hi, by simp⟩
  · intro s c hmp hmem
    by_cases hs : s = []
    · rw [hs] at hmem
      cases hmem
    · unfold generate_candidates_from_thumb at hmem
      rw [if_neg hs, mem_dedupFirst] at hmem
      rcases List.mem_append.mp hmem with hc | hc
      · exact Or.inl hc
      · simp only [pageCands, hmp] at hc
        cases hdp : re_dp (normalizeThumb s) with
        | some bp =>
          rw [hdp] at hc
          refine Or.inr (Or.inl ⟨bp, rfl, ?_⟩)
          rcases List.mem_flatMap.mp hc with ⟨j, _, hin⟩
          rcases List.mem_cons.mp hin with h1 | h1
          · exact Or.inl h1
          · rcases List.mem_cons.mp h1 with h2 | h2
            · exact Or.inr h2
            · cases h2
        | none =>
          rw [hdp] at hc
          rcases List.mem_cons.mp hc with h1 | h1
          · exact Or.inr (Or.inr h1)
          · cases h1

/-- Witness for C5's amended statement: a `_p9` thumbnail with no rewrite gets
its indexed page-3 candidates, and for a pattern-free URL every output
candidate is accounted for (here, the normalized input itself). -/
theorem c5_witness :
    (chars "a" ++ chars "_p" ++ natChars 3 ++ chars ".jpg" ∈
        generate_candidates_from_thumb (chars "a_p9.jpg") MAX_PAGES_TO_EXPAND ∧
      chars "a" ++ chars "_p" ++ natChars 3 ++ chars ".png" ∈
        generate_candidates_from_thumb (chars "a_p9.jpg") MAX_PAGES_TO_EXPAND) ∧
    (chars "abc" ∈ primaryCands (normalizeThumb (chars "abc")) ∨
      (∃ bp, re_dp (normalizeThumb (chars "abc")) = some bp ∧
        (chars "abc" = dpBase ++ bp ++ chars ".jpg" ∨
          chars "abc" = dpBase ++ bp ++ chars ".png")) ∨
      chars "abc" = normalizeThumb (chars "abc")) :=
  ⟨c5_multipage_synthesis.1 (chars "a_p9.jpg") (chars "a") (by decide) (by decide) 3
      (by decide),
   c5_multipage_synthesis.2 (chars "abc") (chars "abc") (by decide) (by decide)⟩

/-- Counterexample to C7 as stated: the empty thumbnail URL matches no
rewrite pattern, yet the generator returns the empty list — not a non-empty
list containing the normalized input. -/
theorem c7_counterexample :
    generate_candidates_from_thumb [] MAX_PAGES_TO_EXPAND = [] ∧
    to_original_url (normalizeThumb []) = normalizeThumb [] :=
  ⟨rfl, rfl⟩

/-- C7 (amended: restricted to nonempty URLs on which none of the patterns —
rewrite, multi-page suffix, date path — matches; the empty URL yields the
empty list, and a multi-page or date-path match replaces the input by
synthesized candidates): for every such URL the generator returns exactly the
one-element list holding the normalized input, which is in particular
non-empty and contains the normalized input. -/
theorem c7_unmatched_returns_normalized_input (s : List Char) (hs : s ≠ [])
    (hrw : rewriteCapture (normalizeThumb s) = none)
    (hmp : re_mp (normalizeThumb s) = none)
    (hdp : re_dp (normalizeThumb s) = none) :
    generate_candidates_from_thumb s MAX_PAGES_TO_EXPAND = [normalizeThumb s] := by
  have horig : to_original_url (normalizeThumb s) = normalizeThumb s := by
    unfold to_original_url
    by_cases hn : normalizeThumb s = []
    · rw [if_pos hn]
    · rw [if_neg hn, hrw]
  have hprim : primaryCands (normalizeThumb s) = [] := by
    simp [primaryCands, horig]
  have hpage : pageCands MAX_PAGES_TO_EXPAND (normalizeThumb s) = [normalizeThumb s] := by
    unfold pageCands
    rw [hmp, hdp]
  unfold generate_candidates_from_thumb
  rw [if_neg hs, hprim, hpage]
  rfl

/-- Witness for C7's amended statement on a pattern-free URL. -/
theorem c7_witness :
    generate_candidates_from_thumb (chars "abc") MAX_PAGES_TO_EXPAND =
      [normalizeThumb (chars "abc")] :=
  c7_unmatched_returns_normalized_input (chars "abc") (by decide) (by decide) (by decide)
    (by decide)

end Pixiv
